import Mathlib

/-!
# A leveled, structured logging facade: shallow embedding and verified properties

The development follows the Go sources `log/log.go`, `log/std.go` and
`contrib/log/zap/zap.go`.

* Go's `interface{}` values are a tagged union `Val`.
* Everything a `Log` call can do to the outside is made explicit in a `World`:
  the ambient state that Valuers read and advance, the trace of `Write` calls
  made on byte sinks, and the trace of `Log` calls received by backends whose
  implementation is not part of the facade.
* A call either returns an `error` value or panics; both are an `Outcome`.
* A Logger is first the value it points to. Where it matters which struct a function
  returns and which it leaves alone, loggers are objects on a `Heap` and a Logger is
  an address; `WithContextH_refines` relates the two views.
-/

namespace App.Log

/-! ## Data model -/

/-- Go's `error` values; `Option Error` is an `error` that may be `nil`. -/
abbrev Error := String

/-- Modelled from the spec: the `Level` type is declared in `level.go`, which is
not among the sources. The spec gives an ordered enumeration
`Debug < Info < Warn < Error < Fatal`. -/
inductive Level where
  | LevelDebug
  | LevelInfo
  | LevelWarn
  | LevelError
  | LevelFatal
deriving DecidableEq, Repr

/-- Modelled from the spec: the position of a level in the order
`Debug < Info < Warn < Error < Fatal` (declared in `level.go`). -/
def Level.rank : Level → Nat
  | .LevelDebug => 0
  | .LevelInfo => 1
  | .LevelWarn => 2
  | .LevelError => 3
  | .LevelFatal => 4

/-- Modelled from the spec: `Level.String` lives in `level.go`, which is not among
the sources. The spec's line format is `<LEVEL> key1=value1 ...` and its scenarios
render `LevelInfo` as `INFO`. -/
def Level.String : Level → String
  | .LevelDebug => "DEBUG"
  | .LevelInfo => "INFO"
  | .LevelWarn => "WARN"
  | .LevelError => "ERROR"
  | .LevelFatal => "FATAL"

/-- The ambient scope (`context.Context`): an opaque read-only carrier that
supports key lookup. -/
structure Context where
  values : List (String × String)
deriving DecidableEq, Repr

/-- The empty scope returned by `context.Background()`. -/
def Context.Background : Context := ⟨[]⟩

/-- The ambient state a Valuer may read and advance (a clock, a counter, an
encoded store). -/
abbrev Env := Nat

/-- Go's `interface{}` as a tagged union: strings, integers, booleans, the `nil`
interface, Valuers, and `other` for a value of any further dynamic type, given by its
type name and its `%s` and `%v` renderings.
The constructor `valuer` is modelled from the spec, the type `Valuer` being declared
in `value.go`, which is not among the sources: "a deferred-value abstraction, a
function evaluated at log-emission time, given a contextual scope, producing a
value". `addr` is the function's code address, `run ctx e` the value an invocation
with scope `ctx` returns in ambient state `e`, and `step ctx e` the ambient state
that invocation leaves behind. A Valuer acts on the ambient state only: it makes no
`Write` on a sink and no `Log` call of its own. -/
inductive Val where
  | str (s : String)
  | int (n : Int)
  | bool (b : Bool)
  | nil
  | valuer (addr : Nat) (run : Context → Env → Val) (step : Context → Env → Env)
  | other (type : String) (s : String) (v : String)

/-- Whether a value's dynamic type is `Valuer` (the type assertion `v.(Valuer)`). -/
def Val.isValuer : Val → Bool
  | .valuer _ _ _ => true
  | _ => false

/-- Decimal rendering of a Go `int`. -/
def fmtInt : Int → String
  | .ofNat n => Nat.repr n
  | .negSucc n => "-" ++ Nat.repr (n + 1)

/-- The `%v` verb of Go's `fmt` package on a value. -/
def fmtV : Val → String
  | .str s => s
  | .int n => fmtInt n
  | .bool b => if b then "true" else "false"
  | .nil => "<nil>"
  | .valuer addr _ _ => "0x" ++ String.mk (Nat.toDigits 16 addr)
  | .other _ _ v => v

/-- The `%s` verb of Go's `fmt` package on a value: a string is copied as it is,
a value of a type without a string form is reported as `%!s(type=value)`. -/
def fmtS : Val → String
  | .str s => s
  | .int n => "%!s(int=" ++ fmtInt n ++ ")"
  | .bool b => "%!s(bool=" ++ (if b then "true" else "false") ++ ")"
  | .nil => "%!s(<nil>)"
  | .valuer addr _ _ => "%!s(log.Valuer=0x" ++ String.mk (Nat.toDigits 16 addr) ++ ")"
  | .other _ s _ => s

/-- How a call ends: it returns an `error` value (`none` is `nil`), it panics, or it
ends the process (`os.Exit`). -/
inductive Outcome where
  | ret (err : Option Error)
  | panicked (msg : String)
  | exited (code : Nat)
deriving DecidableEq, Repr

/-- The observable state around the loggers.
* `env`: the ambient state Valuers read and advance;
* `writes`: the `Write` calls made on byte sinks so far, oldest first, each with the
  sink's identity and the bytes handed over;
* `calls`: the `Log` calls received so far by backends outside the facade, oldest
  first, each with the backend's identity, the level and the key-value sequence. -/
structure World where
  env : Env
  writes : List (Nat × String)
  calls : List (Nat × Level × List Val)

/-- An `io.Writer`: either `io.Discard`, or a sink with an identity whose `Write`
returns the error `reply history p` when handed the bytes `p` after the writes
`history`. -/
inductive Writer where
  | Discard
  | sink (id : Nat) (reply : List (Nat × String) → String → Option Error)

/-- The comparison `w == io.Discard`. -/
def Writer.isDiscard : Writer → Bool
  | .Discard => true
  | .sink _ _ => false

/-- The call `w.Write(p)`: the sink records the bytes and answers with its error;
`io.Discard` records nothing and always succeeds. -/
def Writer.Write (w : Writer) (p : String) (s : World) : Option Error × World :=
  match w with
  | .Discard => (none, s)
  | .sink id reply => (reply s.writes p, { s with writes := s.writes ++ [(id, p)] })

/-! ## `std.go`: the standard backend -/

/-- The struct `stdLogger`. The mutex and the buffer pool carry no state between
calls: every buffer is `Reset` before it is `Put` back and `New` returns an empty
buffer, so `pool.Get()` always yields an empty buffer. -/
structure stdLogger where
  w : Writer
  isDiscard : Bool

/-- The constructor `NewStdLogger`. -/
def NewStdLogger (w : Writer) : stdLogger :=
  { w := w, isDiscard := w.isDiscard }

/-- The loop `for i := 0; i < len(keyvals); i += 2` of `stdLogger.Log` over the
elements from index `i` on: each round appends `Fprintf(buf, " %s=%v", keyvals[i],
keyvals[i+1])`. The result is `none` when `keyvals[i+1]` is out of range, where Go
panics. -/
def stdLogger.Log.loop : List Val → String → Option String
  | [], buf => some buf
  | [_], _ => none
  | k :: v :: rest, buf => stdLogger.Log.loop rest (buf ++ " " ++ fmtS k ++ "=" ++ fmtV v)

/-- The method `(*stdLogger).Log`. -/
def stdLogger.Log (l : stdLogger) (level : Level) (keyvals : List Val) (s : World) :
    Outcome × World :=
  if l.isDiscard || keyvals.length == 0 then
    (.ret none, s)
  else
    let keyvals :=
      if keyvals.length &&& 1 == 1 then keyvals ++ [.str "KEYVALS UNPAIRED"] else keyvals
    let buf := ""
    let buf := buf ++ level.String
    match stdLogger.Log.loop keyvals buf with
    | none => (.panicked "index out of range", s)
    | some buf =>
      let buf := buf.push '\n'
      let (err, s) := l.w.Write buf s
      (.ret err, s)

/-! ## `log.go`: the decorator chain -/

/-- Modelled from the spec: the struct `Filter` is declared in `filter.go`, which is
not among the sources. These are its fields other than the wrapped `logger`: "a
threshold Level" and redaction rules, a predicate on a key and its value, with the
"fixed placeholder" that replaces a matching value. -/
structure FilterRules where
  level : Level
  rule : Val → Val → Bool
  placeholder : Val

/-- The interface `Logger` by its implementations.
* `std`: the standard backend `*stdLogger`;
* `backend`: any implementation outside the facade, with an identity; its `Log`
  records the call and ends as `reply level keyvals` says;
* `deco`: the decorator `*logger`, with the fields of the struct `logger`;
* `filter`: the decorator `*Filter`, with its field `logger`, which `WithContext`
  reads and replaces, and its other fields. -/
inductive Logger where
  | std (l : stdLogger)
  | backend (id : Nat) (reply : Level → List Val → Outcome)
  | deco (logger : Logger) (prefix_ : List Val) (hasValuer : Bool) (ctx : Context)
  | filter (logger : Logger) (rules : FilterRules)

/-- The type assertion `l.(*logger)` succeeds. -/
def Logger.isDeco : Logger → Bool
  | .deco _ _ _ _ => true
  | _ => false

/-- The type assertion `l.(*Filter)` succeeds. -/
def Logger.isFilter : Logger → Bool
  | .filter _ _ => true
  | _ => false

/-- Modelled from the spec: `containsValuer` lives in `value.go`, which is not among
the sources. The spec: "Computes once, at construction, whether the new prefix
contains any Valuer". -/
def containsValuer (keyvals : List Val) : Bool :=
  keyvals.any Val.isValuer

/-- Modelled from the spec: `bindValues` lives in `value.go`, which is not among the
sources. The spec: "resolving each Valuer by invoking it with the bound scope",
"Resolution order follows prefix order". Each Valuer in the sequence is invoked
once, in order, and replaced by the value it returns; the result is the resolved
sequence and the ambient state after the invocations. -/
def bindValues (ctx : Context) : List Val → Env → List Val × Env
  | [], e => ([], e)
  | .valuer _ run step :: rest, e =>
    let (r, e') := bindValues ctx rest (step ctx e)
    (run ctx e :: r, e')
  | v :: rest, e =>
    let (r, e') := bindValues ctx rest e
    (v :: r, e')

/-- Modelled from the spec: the redaction of `Filter` (`filter.go` is not among the
sources). "any key/value pair matching a redaction rule has its value replaced with
a fixed placeholder"; the key is kept. -/
def redact (rule : Val → Val → Bool) (placeholder : Val) : List Val → List Val
  | k :: v :: rest => k :: (if rule k v then placeholder else v) :: redact rule placeholder rest
  | kvs => kvs

/-- Modelled from the spec: `(*Filter).Log` lives in `filter.go`, which is not among
the sources. What a Filter hands to its wrapped logger: nothing for a call below the
threshold ("return `nil` immediately without touching the wrapped backend"), the
redacted sequence for any other call. -/
def Filter.pass (rules : FilterRules) (level : Level) (keyvals : List Val) :
    Option (List Val) :=
  if level.rank < rules.level.rank then none
  else some (redact rules.rule rules.placeholder keyvals)

/-- The method `Log` of the interface `Logger`, dispatched on the dynamic type.
* `std`: `(*stdLogger).Log`;
* `backend`: the call is recorded and ends as the backend's reply says;
* `deco`: the method `(*logger).Log` of `log.go`: a fresh copy of the prefix, Valuers
  bound when the flag is set, the caller's keyvals appended, one call of the
  wrapped logger;
* `filter`: a call that `Filter.pass` drops returns `nil`, any other is one call of
  the wrapped logger with the sequence `Filter.pass` gives. -/
def Logger.Log : Logger → Level → List Val → World → Outcome × World
  | .std l, level, keyvals, s => l.Log level keyvals s
  | .backend id reply, level, keyvals, s =>
    (reply level keyvals, { s with calls := s.calls ++ [(id, level, keyvals)] })
  | .deco logger prefix_ hasValuer ctx, level, keyvals, s =>
    let kvs : List Val := []
    let kvs := kvs ++ prefix_
    let (kvs, env) := if hasValuer then bindValues ctx kvs s.env else (kvs, s.env)
    let kvs := kvs ++ keyvals
    Logger.Log logger level kvs { s with env := env }
  | .filter logger rules, level, keyvals, s =>
    match Filter.pass rules level keyvals with
    | none => (.ret none, s)
    | some kvs => Logger.Log logger level kvs s

/-- The function `With`. -/
def With (l : Logger) (kv : List Val) : Logger :=
  match l with
  | .deco logger prefix_ _ ctx =>
    let kvs : List Val := []
    let kvs := kvs ++ prefix_
    let kvs := kvs ++ kv
    .deco logger kvs (containsValuer kvs) ctx
  | _ => .deco l kv (containsValuer kv) Context.Background

/-- The function `WithContext`. -/
def WithContext (ctx : Context) : Logger → Logger
  | .deco logger prefix_ hasValuer _ => .deco logger prefix_ hasValuer ctx
  | .filter logger rules => .filter (WithContext ctx logger) rules
  | l => .deco l [] false ctx

/-- The wrapped logger of a decorator (the field `logger.logger`). -/
def Logger.inner? : Logger → Option Logger
  | .deco logger _ _ _ => some logger
  | _ => none

/-- The prefix of a decorator (the field `logger.prefix`). -/
def Logger.prefix? : Logger → Option (List Val)
  | .deco _ prefix_ _ _ => some prefix_
  | _ => none

/-- The Valuer flag of a decorator (the field `logger.hasValuer`). -/
def Logger.hasValuer? : Logger → Option Bool
  | .deco _ _ hasValuer _ => some hasValuer
  | _ => none

/-- The bound scope of a decorator (the field `logger.ctx`). -/
def Logger.ctx? : Logger → Option Context
  | .deco _ _ _ ctx => some ctx
  | _ => none

end App.Log

/-! ## `contrib/log/zap/zap.go`: the zap adapter -/

namespace App.Zap

open App.Log

/-- The name of a value's dynamic type, as a failed type assertion reports it. -/
def typeName : Val → String
  | .str _ => "string"
  | .int _ => "int"
  | .bool _ => "bool"
  | .nil => "nil"
  | .valuer _ _ _ => "log.Valuer"
  | .other type _ _ => type

/-- The methods of `*zap.Logger` that the adapter calls. -/
inductive Method where
  | Debug
  | Info
  | Warn
  | Error
  | Fatal
deriving DecidableEq, Repr

/-- What the adapter does to the outside: the lines it prints with `fmt.Println`,
and the calls it makes on the zap logger, each with the method, the message and
the fields (`zap.Any(key, value)` is the pair of key and value); oldest first. -/
structure World where
  stdout : List String
  entries : List (Method × String × List (String × Val))

/-- The struct `Logger` of the adapter. Of the field `log *zap.Logger` the adapter
reads `Core().Enabled`, a predicate on zap's integer levels. -/
structure Logger where
  Enabled : Int → Bool
  msgKey : String

/-- The constant `zapcore.DPanicLevel` of the zap library. -/
def DPanicLevel : Int := 3

/-- The operand `keyvals` under `fmt.Sprint`: a slice prints as its elements under
`%v`, space-separated, in brackets. -/
def sprintSlice (keyvals : List Val) : String :=
  "[" ++ " ".intercalate (keyvals.map fmtV) ++ "]"

/-- The loop `for i := 0; i < keylen; i += 2` of `Logger.Log` over the elements from
index `i` on, with the current `msg` and `data`. The unchecked type assertion
`keyvals[i].(string)` panics on a key that is not a string. -/
def Logger.Log.loop (msgKey : String) :
    List Val → String → List (String × Val) → World →
      Except String (String × List (String × Val)) × World
  | [], msg, data, s => (.ok (msg, data), s)
  | [_], _, _, s => (.error "index out of range", s)
  | k :: v :: rest, msg, data, s =>
    match k with
    | .str key =>
      let s := { s with stdout := s.stdout ++ [key ++ "\n"] }
      if key == msgKey then
        let msg := match v with
          | .str m => m
          | _ => ""
        Logger.Log.loop msgKey rest msg data s
      else
        Logger.Log.loop msgKey rest msg (data ++ [(fmtV k, v)]) s
    | _ =>
      (.error ("interface conversion: interface \x7b\x7d is " ++ typeName k ++ ", not string"), s)

/-- The method `(*Logger).Log` of the adapter. `num` is the integer value of each
level (declared in `level.go`, which is not among the sources), which the
conversion `zapcore.Level(level)` reads. -/
def Logger.Log (num : Level → Int) (l : Logger) (level : Level) (keyvals : List Val)
    (s : World) : Outcome × World :=
  if num level < DPanicLevel && !l.Enabled (num level) then
    (.ret none, s)
  else
    let msg := ""
    let keylen := keyvals.length
    if keylen == 0 || keylen &&& 1 != 0 then
      (.ret none, { s with entries := s.entries ++
        [(.Warn, "Keyvalues must appear in pairs: " ++ sprintSlice keyvals, [])] })
    else
      let data : List (String × Val) := []
      match Logger.Log.loop l.msgKey keyvals msg data s with
      | (.error e, s) => (.panicked e, s)
      | (.ok (msg, data), s) =>
        match level with
        | .LevelDebug => (.ret none, { s with entries := s.entries ++ [(.Debug, msg, data)] })
        | .LevelInfo => (.ret none, { s with entries := s.entries ++ [(.Info, msg, data)] })
        | .LevelWarn => (.ret none, { s with entries := s.entries ++ [(.Warn, msg, data)] })
        | .LevelError => (.ret none, { s with entries := s.entries ++ [(.Error, msg, data)] })
        | .LevelFatal => (.exited 1, { s with entries := s.entries ++ [(.Fatal, msg, data)] })

end App.Zap

/-! ## The rendered line of the standard backend -/

namespace App.Log

/-- The pairs `(k1, v1), ..., (kn, vn)` of a key-value sequence `k1, v1, ..., kn, vn`,
in order. -/
def pairsOf : List Val → List (Val × Val)
  | k :: v :: rest => (k, v) :: pairsOf rest
  | _ => []

/-- The text ` k=v` for each pair in order, the key under `%s`, the value under `%v`,
with no escaping. -/
def renderPairs : List (Val × Val) → String
  | [] => ""
  | (k, v) :: rest => " " ++ fmtS k ++ "=" ++ fmtV v ++ renderPairs rest

/-- The line format of the spec for a level and a key-value sequence:
`<LEVEL> key1=value1 key2=value2 ...` and one newline. -/
def renderedLine (level : Level) (keyvals : List Val) : String :=
  level.String ++ renderPairs (pairsOf keyvals) ++ "\n"

/-- The sentinel that completes an unpaired key. -/
def sentinel : Val := .str "KEYVALS UNPAIRED"

/-- A key-value sequence with a missing last value replaced by the sentinel. -/
def padded (keyvals : List Val) : List Val :=
  if keyvals.length % 2 = 1 then keyvals ++ [sentinel] else keyvals

/-- One step of building a decorator chain: a call of `With` or of `WithContext`. -/
inductive ChainOp where
  | withFields (kv : List Val)
  | withContext (ctx : Context)

/-- The logger a chain step returns when applied to `l`. -/
def ChainOp.apply (l : Logger) : ChainOp → Logger
  | .withFields kv => With l kv
  | .withContext ctx => WithContext ctx l

/-- The logger obtained from `b` by a sequence of `With` and `WithContext` calls,
each applied to the result of the one before. -/
def build (b : Logger) (ops : List ChainOp) : Logger :=
  ops.foldl ChainOp.apply b

/-- The Valuer flag of a decorator agrees with its prefix. -/
def Logger.flagOK : Logger → Bool
  | .deco _ prefix_ hasValuer _ => hasValuer == containsValuer prefix_
  | _ => true

/-! ## `log.go` at the level of pointers

`With` and `WithContext` return pointers to structs. Above, a Logger is the value it
points to; that view cannot tell a function that returns a new struct from one that
updates the struct it was given. Here loggers are objects on a heap and a `Logger`
interface value is the address of one, so both can be told apart. -/

/-- The address of a heap object; a `Logger` interface value holds one. -/
abbrev Addr := Nat

set_option linter.dupNamespace false

/-- The struct `logger` of `log.go`; the field `logger` is an interface value. -/
structure logger where
  logger : Addr
  prefix_ : List Val
  hasValuer : Bool
  ctx : Context

/-- The struct `Filter`: its field `logger`, an interface value, and its other
fields. -/
structure Filter where
  logger : Addr
  rules : FilterRules

/-- What an address can hold: a `stdLogger`, a backend outside the facade, a `logger`
or a `Filter`. -/
inductive Obj where
  | std (l : stdLogger)
  | backend (id : Nat) (reply : Level → List Val → Outcome)
  | deco (c : logger)
  | filter (f : Filter)

/-- The heap: the object at address `a` is the `a`-th element. -/
structure Heap where
  objs : List Obj

/-- The object an address points to, if any (`nil` and dangling addresses point to
none). -/
def Heap.load (h : Heap) (a : Addr) : Option Obj :=
  h.objs[a]?

/-- A new object is placed at the first unused address; no other address changes. -/
def Heap.alloc (h : Heap) (o : Obj) : Addr × Heap :=
  (h.objs.length, { objs := h.objs ++ [o] })

/-- The function `WithContext` on the heap, by the type switch on what `l` points to.
* `*logger`: `lv := *v; lv.ctx = ctx; return &lv`;
* `*Filter`: `fv := *v; fv.logger = WithContext(ctx, fv.logger); return &fv`;
* default: `return &logger{logger: l, ctx: ctx}`.
The first argument bounds the depth of the recursion through Filters; the result is
`none` when it is used up. -/
def WithContextH : Nat → Context → Addr → Heap → Option (Addr × Heap)
  | 0, _, _, _ => none
  | fuel + 1, ctx, l, h =>
    match h.load l with
    | some (.deco v) =>
      let lv := v
      let lv := { lv with ctx := ctx }
      some (h.alloc (.deco lv))
    | some (.filter v) =>
      let fv := v
      match WithContextH fuel ctx fv.logger h with
      | none => none
      | some (inner, h) =>
        let fv := { fv with logger := inner }
        some (h.alloc (.filter fv))
    | _ => some (h.alloc (.deco { logger := l, prefix_ := [], hasValuer := false, ctx := ctx }))

/-- The Logger value an address stands for: the object it points to with every
interface field followed in turn, to the given depth. -/
def Heap.toLogger (h : Heap) : Nat → Addr → Option Logger
  | 0, _ => none
  | n + 1, a =>
    match h.load a with
    | some (.std l) => some (.std l)
    | some (.backend id reply) => some (.backend id reply)
    | some (.deco c) =>
      match h.toLogger n c.logger with
      | some inner => some (.deco inner c.prefix_ c.hasValuer c.ctx)
      | none => none
    | some (.filter f) =>
      match h.toLogger n f.logger with
      | some inner => some (.filter inner f.rules)
      | none => none
    | none => none

/-! ## Lemmas -/

theorem push_newline (buf : String) : buf.push '\n' = buf ++ "\n" := by
  apply String.ext
  simp

theorem loop_even (keyvals : List Val) (buf : String) (h : keyvals.length % 2 = 0) :
    stdLogger.Log.loop keyvals buf = some (buf ++ renderPairs (pairsOf keyvals)) := by
  induction keyvals, buf using stdLogger.Log.loop.induct with
  | case1 buf =>
    simp [stdLogger.Log.loop, pairsOf, renderPairs]
  | case2 k buf =>
    simp at h
  | case3 k v rest buf ih =>
    have h' : rest.length % 2 = 0 := by
      simp only [List.length_cons] at h
      omega
    rw [stdLogger.Log.loop, ih h']
    simp [pairsOf, renderPairs, String.append_assoc]

theorem padded_length_even (keyvals : List Val) : (padded keyvals).length % 2 = 0 := by
  unfold padded
  split
  · simp only [List.length_append, List.length_singleton]
    omega
  · omega

/-- On a sink, a non-empty sequence is written in one `Write` as the line of its
padded form, and the outcome is what that `Write` returned. -/
theorem stdLogger_Log_sink (id : Nat) (reply : List (Nat × String) → String → Option Error)
    (level : Level) (keyvals : List Val) (s : World) (hne : keyvals ≠ []) :
    stdLogger.Log (NewStdLogger (.sink id reply)) level keyvals s =
      (.ret (reply s.writes (renderedLine level (padded keyvals))),
        { s with writes := s.writes ++ [(id, renderedLine level (padded keyvals))] }) := by
  have hlen : keyvals.length ≠ 0 := by
    intro h
    exact hne (List.length_eq_zero.mp h)
  have hpad : (if keyvals.length &&& 1 = 1 then keyvals ++ [Val.str "KEYVALS UNPAIRED"]
      else keyvals) = padded keyvals := by
    simp [padded, sentinel, Nat.and_one_is_mod]
  simp only [stdLogger.Log, NewStdLogger, Writer.isDiscard, Bool.false_or, beq_iff_eq, hlen,
    if_false, hpad]
  rw [loop_even _ _ (padded_length_even keyvals)]
  simp [Writer.Write, renderedLine, push_newline]

theorem padded_of_even (keyvals : List Val) (h : keyvals.length % 2 = 0) :
    padded keyvals = keyvals := by
  simp [padded, h]

theorem padded_of_odd (keyvals : List Val) (h : keyvals.length % 2 = 1) :
    padded keyvals = keyvals ++ [sentinel] := by
  simp [padded, h]

theorem renderPairs_no_newline (ps : List (Val × Val))
    (h : ∀ p ∈ ps, '\n' ∉ (fmtS p.1).data ∧ '\n' ∉ (fmtV p.2).data) :
    '\n' ∉ (renderPairs ps).data := by
  induction ps with
  | nil => simp [renderPairs]
  | cons p rest ih =>
    obtain ⟨k, v⟩ := p
    have hp := h (k, v) (List.mem_cons_self _ _)
    have hr := ih (fun q hq => h q (List.mem_cons_of_mem _ hq))
    simp only [renderPairs, String.data_append, List.mem_append, not_or]
    exact ⟨⟨⟨⟨by decide, hp.1⟩, by decide⟩, hp.2⟩, hr⟩

theorem level_String_token (level : Level) :
    level.String ≠ "" ∧ ' ' ∉ level.String.data ∧ '\n' ∉ level.String.data := by
  cases level <;> decide

/-! ## The standard backend: claims -/

/-- C1. For every level and every non-empty even-length key-value sequence,
`stdLogger.Log` on a sink that is not `io.Discard` makes a single `Write` whose bytes
are exactly the level's string form, then ` ki=vi` for each pair in original order
(key under `%s`, value under `%v`, no escaping), then one newline, and nothing else is
written; in particular `Log(Info, "user", "alice", "count", 3)` writes
`INFO user=alice count=3` and a newline. -/
theorem stdLogger_Log_renders_pairs :
    (∀ (id : Nat) (reply : List (Nat × String) → String → Option Error) (level : Level)
        (keyvals : List Val) (s : World),
        keyvals ≠ [] → keyvals.length % 2 = 0 →
        stdLogger.Log (NewStdLogger (.sink id reply)) level keyvals s =
          (.ret (reply s.writes (renderedLine level keyvals)),
            { s with writes := s.writes ++ [(id, renderedLine level keyvals)] })) ∧
    (∀ (id : Nat) (reply : List (Nat × String) → String → Option Error) (s : World),
        stdLogger.Log (NewStdLogger (.sink id reply)) .LevelInfo
            [.str "user", .str "alice", .str "count", .int 3] s =
          (.ret (reply s.writes "INFO user=alice count=3\n"),
            { s with writes := s.writes ++ [(id, "INFO user=alice count=3\n")] })) := by
  constructor
  · intro id reply level keyvals s hne heven
    rw [stdLogger_Log_sink id reply level keyvals s hne, padded_of_even keyvals heven]
  · intro id reply s
    rw [stdLogger_Log_sink id reply _ _ s (by simp)]
    have h : renderedLine .LevelInfo
        (padded [.str "user", .str "alice", .str "count", .int 3]) =
          "INFO user=alice count=3\n" := by decide
    rw [h]

/-- C1, at a concrete input. -/
theorem stdLogger_Log_renders_pairs_witness :
    [Val.str "a", Val.bool true] ≠ [] ∧ [Val.str "a", Val.bool true].length % 2 = 0 ∧
    stdLogger.Log (NewStdLogger (.sink 7 (fun _ _ => some "disk full"))) .LevelWarn
        [.str "a", .bool true] ⟨0, [], []⟩ =
      (.ret (some "disk full"), ⟨0, [(7, "WARN a=true\n")], []⟩) := by
  refine ⟨by simp, by decide, ?_⟩
  rw [stdLogger_Log_renders_pairs.1 7 (fun _ _ => some "disk full") .LevelWarn
    [.str "a", .bool true] ⟨0, [], []⟩ (by simp) (by decide)]
  have h : renderedLine .LevelWarn [.str "a", .bool true] = "WARN a=true\n" := by decide
  simp [h]

/-- C2. For every level and every odd-length key-value sequence, `stdLogger.Log` on a
sink that is not `io.Discard` does not fail on the malformed input: it behaves exactly
as on that sequence with the one sentinel value `KEYVALS UNPAIRED` appended, that is,
it writes the line of the sequence with the sentinel as the last value in a single
`Write` and returns what the `Write` returned. In particular
`With(backend, "k").Log(Info)` over a std backend writes `INFO k=KEYVALS UNPAIRED`
and a newline. -/
theorem stdLogger_Log_unpaired :
    (∀ (id : Nat) (reply : List (Nat × String) → String → Option Error) (level : Level)
        (keyvals : List Val) (s : World),
        keyvals.length % 2 = 1 →
        stdLogger.Log (NewStdLogger (.sink id reply)) level keyvals s =
          stdLogger.Log (NewStdLogger (.sink id reply)) level
            (keyvals ++ [.str "KEYVALS UNPAIRED"]) s ∧
        stdLogger.Log (NewStdLogger (.sink id reply)) level keyvals s =
          (.ret (reply s.writes (renderedLine level (keyvals ++ [.str "KEYVALS UNPAIRED"]))),
            { s with writes := s.writes ++
              [(id, renderedLine level (keyvals ++ [.str "KEYVALS UNPAIRED"]))] })) ∧
    (∀ (id : Nat) (reply : List (Nat × String) → String → Option Error) (s : World),
        Logger.Log (With (.std (NewStdLogger (.sink id reply))) [.str "k"]) .LevelInfo [] s =
          (.ret (reply s.writes "INFO k=KEYVALS UNPAIRED\n"),
            { s with writes := s.writes ++ [(id, "INFO k=KEYVALS UNPAIRED\n")] })) := by
  constructor
  · intro id reply level keyvals s hodd
    have hne : keyvals ≠ [] := by
      intro h
      simp [h] at hodd
    have hne' : keyvals ++ [Val.str "KEYVALS UNPAIRED"] ≠ [] := by simp
    have heven : (keyvals ++ [Val.str "KEYVALS UNPAIRED"]).length % 2 = 0 := by
      simp only [List.length_append, List.length_singleton]
      omega
    have h1 := stdLogger_Log_sink id reply level keyvals s hne
    have h2 := stdLogger_Log_sink id reply level _ s hne'
    rw [padded_of_odd keyvals hodd] at h1
    rw [padded_of_even _ heven] at h2
    exact ⟨by rw [h1, h2]; rfl, h1⟩
  · intro id reply s
    have h : renderedLine .LevelInfo (padded [.str "k"]) = "INFO k=KEYVALS UNPAIRED\n" := by
      decide
    simp only [With, Logger.Log, containsValuer, List.any, Val.isValuer, Bool.or_false,
      List.nil_append, List.append_nil, Bool.false_eq_true, if_false]
    rw [stdLogger_Log_sink id reply _ _ _ (by simp), h]

/-- C2, at a concrete input. -/
theorem stdLogger_Log_unpaired_witness :
    [Val.str "a", Val.int 1, Val.str "b"].length % 2 = 1 ∧
    stdLogger.Log (NewStdLogger (.sink 7 (fun _ _ => none))) .LevelError
        [.str "a", .int 1, .str "b"] ⟨0, [], []⟩ =
      (.ret none, ⟨0, [(7, "ERROR a=1 b=KEYVALS UNPAIRED\n")], []⟩) := by
  refine ⟨by decide, ?_⟩
  rw [(stdLogger_Log_unpaired.1 7 (fun _ _ => none) .LevelError
    [.str "a", .int 1, .str "b"] ⟨0, [], []⟩ (by decide)).2]
  have h : renderedLine .LevelError ([.str "a", .int 1, .str "b"] ++ [.str "KEYVALS UNPAIRED"]) =
      "ERROR a=1 b=KEYVALS UNPAIRED\n" := by decide
  rw [h]
  rfl

/-- C7, as stated, fails: on a sink that is not `io.Discard`, the empty (even-length)
sequence makes `stdLogger.Log` return `nil` with no `Write` at all, so no line is
written; and a value with an embedded newline is not escaped, so the bytes written
hold two newlines. -/
theorem stdLogger_Log_not_always_one_line :
    ([] : List Val).length % 2 = 0 ∧
    (stdLogger.Log (NewStdLogger (.sink 0 (fun _ _ => none))) .LevelInfo []
      ⟨0, [], []⟩).2.writes = [] ∧
    (stdLogger.Log (NewStdLogger (.sink 0 (fun _ _ => none))) .LevelInfo []
      ⟨0, [], []⟩).1 = .ret none ∧
    [Val.str "k", Val.str "a\nb"].length % 2 = 0 ∧
    (stdLogger.Log (NewStdLogger (.sink 0 (fun _ _ => none))) .LevelInfo
      [.str "k", .str "a\nb"] ⟨0, [], []⟩).2.writes = [(0, "INFO k=a\nb\n")] ∧
    "INFO k=a\nb\n".data.count '\n' = 2 := by
  decide

/-- C7, amended. For every level and every non-empty even-length key-value sequence,
`stdLogger.Log` on a sink that is not `io.Discard` makes exactly one `Write`, whose
bytes are the level's string form (not empty, holding no blank and no newline), one
blank, a body and a final newline, and returns what the `Write` returned; when no
rendered key or value holds a newline the body holds none, so the bytes are exactly
one line. For the empty sequence the call returns `nil` and writes nothing. -/
theorem stdLogger_Log_one_line :
    (∀ (id : Nat) (reply : List (Nat × String) → String → Option Error) (level : Level)
        (keyvals : List Val) (s : World),
        keyvals ≠ [] → keyvals.length % 2 = 0 →
        ∃ body : String,
          stdLogger.Log (NewStdLogger (.sink id reply)) level keyvals s =
            (.ret (reply s.writes (level.String ++ " " ++ body ++ "\n")),
              { s with writes := s.writes ++ [(id, level.String ++ " " ++ body ++ "\n")] }) ∧
          level.String ≠ "" ∧ ' ' ∉ level.String.data ∧ '\n' ∉ level.String.data ∧
          ((∀ p ∈ pairsOf keyvals, '\n' ∉ (fmtS p.1).data ∧ '\n' ∉ (fmtV p.2).data) →
            '\n' ∉ body.data)) ∧
    (∀ (id : Nat) (reply : List (Nat × String) → String → Option Error) (level : Level)
        (s : World),
        stdLogger.Log (NewStdLogger (.sink id reply)) level [] s = (.ret none, s)) := by
  constructor
  · intro id reply level keyvals s hne heven
    match keyvals, hne, heven with
    | [], hne, _ => exact absurd rfl hne
    | [_], _, heven => simp at heven
    | k :: v :: rest, hne, heven =>
      refine ⟨fmtS k ++ "=" ++ fmtV v ++ renderPairs (pairsOf rest), ?_,
        (level_String_token level).1, (level_String_token level).2.1,
        (level_String_token level).2.2, ?_⟩
      · rw [stdLogger_Log_sink id reply level _ s hne, padded_of_even _ heven]
        simp [renderedLine, pairsOf, renderPairs, String.append_assoc]
      · intro h
        have hk := h (k, v) (by simp [pairsOf])
        have hr := renderPairs_no_newline (pairsOf rest)
          (fun p hp => h p (by simp [pairsOf, hp]))
        simp only [String.data_append, List.mem_append, not_or]
        exact ⟨⟨⟨hk.1, by decide⟩, hk.2⟩, hr⟩
  · intro id reply level s
    simp [stdLogger.Log]

/-- C7 amended, at a concrete input. -/
theorem stdLogger_Log_one_line_witness :
    [Val.str "k", Val.int 2] ≠ [] ∧ [Val.str "k", Val.int 2].length % 2 = 0 ∧
    ∃ body : String,
      stdLogger.Log (NewStdLogger (.sink 0 (fun _ _ => none))) .LevelDebug
          [.str "k", .int 2] ⟨0, [], []⟩ =
        (.ret none, ⟨0, [(0, "DEBUG" ++ " " ++ body ++ "\n")], []⟩) ∧
      '\n' ∉ body.data := by
  refine ⟨by simp, by decide, ?_⟩
  obtain ⟨body, h, _, _, _, hb⟩ := stdLogger_Log_one_line.1 0 (fun _ _ => none) .LevelDebug
    [.str "k", .int 2] ⟨0, [], []⟩ (by simp) (by decide)
  refine ⟨body, h, hb ?_⟩
  intro p hp
  simp only [pairsOf, List.mem_singleton] at hp
  subst hp
  decide

/-! ## The decorator chain: lemmas -/

theorem containsValuer_cons (v : Val) (rest : List Val) :
    containsValuer (v :: rest) = (v.isValuer || containsValuer rest) := by
  simp [containsValuer]

theorem bindValues_of_no_valuer (ctx : Context) (kvs : List Val) (e : Env)
    (h : containsValuer kvs = false) : bindValues ctx kvs e = (kvs, e) := by
  induction kvs generalizing e with
  | nil => rfl
  | cons v rest ih =>
    rw [containsValuer_cons, Bool.or_eq_false_iff] at h
    cases v <;> simp_all [bindValues, Val.isValuer]

/-- A decorator whose flag agrees with its prefix hands the wrapped logger, in one
call, the prefix with its Valuers bound followed by the caller's keyvals. -/
theorem Logger_Log_deco (inner : Logger) (pfx : List Val) (hv : Bool) (ctx : Context)
    (level : Level) (keyvals : List Val) (s : World) (h : hv = containsValuer pfx) :
    Logger.Log (.deco inner pfx hv ctx) level keyvals s =
      Logger.Log inner level ((bindValues ctx pfx s.env).1 ++ keyvals)
        { s with env := (bindValues ctx pfx s.env).2 } := by
  subst h
  cases hc : containsValuer pfx
  · simp [Logger.Log, hc, bindValues_of_no_valuer ctx pfx s.env hc]
  · simp [Logger.Log, hc]

theorem flagOK_With (l : Logger) (kv : List Val) : (With l kv).flagOK = true := by
  cases l <;> simp [With, Logger.flagOK]

theorem flagOK_WithContext (ctx : Context) (l : Logger) (h : l.flagOK = true) :
    (WithContext ctx l).flagOK = true := by
  cases l <;> simp_all [WithContext, Logger.flagOK, containsValuer]

theorem flagOK_build (b : Logger) (ops : List ChainOp) (h : b.flagOK = true) :
    (build b ops).flagOK = true := by
  induction ops generalizing b with
  | nil => simpa [build] using h
  | cons op rest ih =>
    have hstep : (op.apply b).flagOK = true := by
      cases op
      · exact flagOK_With b _
      · exact flagOK_WithContext _ b h
    simpa [build] using ih (op.apply b) hstep

theorem flagOK_of_not_deco (b : Logger) (h : b.isDeco = false) : b.flagOK = true := by
  cases b <;> simp_all [Logger.flagOK, Logger.isDeco]

/-- A chain over a std backend is the backend itself or one decorator right over it. -/
theorem build_std_shape (l : stdLogger) (ops : List ChainOp) (b : Logger)
    (hb : b = .std l ∨ ∃ p h c, b = .deco (.std l) p h c) :
    build b ops = .std l ∨ ∃ p h c, build b ops = .deco (.std l) p h c := by
  induction ops generalizing b with
  | nil => simpa [build] using hb
  | cons op rest ih =>
    have hstep : op.apply b = .std l ∨ ∃ p h c, op.apply b = .deco (.std l) p h c := by
      right
      rcases hb with hb | ⟨p, h, c, hb⟩ <;> subst hb <;> cases op <;>
        simp [ChainOp.apply, With, WithContext]
    simpa [build] using ih (op.apply b) hstep

/-! ## The heap: lemmas -/

theorem load_length (h : Heap) : h.load h.objs.length = none := by
  simp [Heap.load]

theorem load_alloc_new (h : Heap) (o : Obj) :
    (Heap.mk (h.objs ++ [o])).load h.objs.length = some o := by
  simp [Heap.load]

theorem load_alloc_old (h : Heap) (o : Obj) (b : Addr) (x : Obj) (hb : h.load b = some x) :
    (Heap.mk (h.objs ++ [o])).load b = some x := by
  simp only [Heap.load] at hb ⊢
  have hlt : b < h.objs.length := by
    by_contra hge
    rw [List.getElem?_eq_none (Nat.le_of_not_lt hge)] at hb
    cases hb
  rw [List.getElem?_append_left hlt]
  exact hb

theorem toLogger_mono (h : Heap) (n : Nat) (a : Addr) (L : Logger)
    (hL : h.toLogger n a = some L) : h.toLogger (n + 1) a = some L := by
  induction n generalizing a L with
  | zero => simp [Heap.toLogger] at hL
  | succ n ih =>
    rw [Heap.toLogger] at hL ⊢
    split at hL
    · next l hl => simpa [hl] using hL
    · next id reply hl => simpa [hl] using hL
    · next c hl =>
      split at hL
      · next inner hi => simpa [hl, ih _ _ hi] using hL
      · cases hL
    · next f hl =>
      split at hL
      · next inner hi => simpa [hl, ih _ _ hi] using hL
      · cases hL
    · cases hL

theorem toLogger_alloc (h : Heap) (o : Obj) (n : Nat) (a : Addr) (L : Logger)
    (hL : h.toLogger n a = some L) : (Heap.mk (h.objs ++ [o])).toLogger n a = some L := by
  induction n generalizing a L with
  | zero => simp [Heap.toLogger] at hL
  | succ n ih =>
    rw [Heap.toLogger] at hL ⊢
    split at hL
    · next l hl => simpa [load_alloc_old h o a _ hl] using hL
    · next id reply hl => simpa [load_alloc_old h o a _ hl] using hL
    · next c hl =>
      split at hL
      · next inner hi => simpa [load_alloc_old h o a _ hl, ih _ _ hi] using hL
      · cases hL
    · next f hl =>
      split at hL
      · next inner hi => simpa [load_alloc_old h o a _ hl, ih _ _ hi] using hL
      · cases hL
    · cases hL

/-- The two views of `WithContext` agree. When the address `a` stands for the Logger
value `L`, `WithContext` on the heap returns, and the address it returns stands for
`WithContext ctx L`; every address keeps the object and the Logger value it had. -/
theorem WithContextH_refines (ctx : Context) (n : Nat) (h : Heap) (a : Addr) (L : Logger)
    (hL : h.toLogger n a = some L) :
    ∃ (a' : Addr) (h' : Heap),
      WithContextH n ctx a h = some (a', h') ∧
      h'.toLogger (n + 1) a' = some (WithContext ctx L) ∧
      (∀ (b : Addr) (o : Obj), h.load b = some o → h'.load b = some o) ∧
      (∀ (m : Nat) (b : Addr) (T : Logger), h.toLogger m b = some T →
        h'.toLogger m b = some T) := by
  induction n generalizing a h L with
  | zero => simp [Heap.toLogger] at hL
  | succ n ih =>
    have hL' := hL
    rw [Heap.toLogger] at hL
    split at hL
    · next l hl =>
      cases hL
      refine ⟨h.objs.length, Heap.mk (h.objs ++ [.deco ⟨a, [], false, ctx⟩]), ?_, ?_,
        fun b o hb => load_alloc_old h _ b o hb, fun m b T hT => toLogger_alloc h _ m b T hT⟩
      · simp [WithContextH, hl, Heap.alloc]
      · rw [Heap.toLogger, load_alloc_new]
        simp [toLogger_alloc h _ _ _ _ hL', WithContext]
    · next id reply hl =>
      cases hL
      refine ⟨h.objs.length, Heap.mk (h.objs ++ [.deco ⟨a, [], false, ctx⟩]), ?_, ?_,
        fun b o hb => load_alloc_old h _ b o hb, fun m b T hT => toLogger_alloc h _ m b T hT⟩
      · simp [WithContextH, hl, Heap.alloc]
      · rw [Heap.toLogger, load_alloc_new]
        simp [toLogger_alloc h _ _ _ _ hL', WithContext]
    · next c hl =>
      split at hL
      · next inner hi =>
        cases hL
        refine ⟨h.objs.length,
          Heap.mk (h.objs ++ [.deco ⟨c.logger, c.prefix_, c.hasValuer, ctx⟩]), ?_, ?_,
          fun b o hb => load_alloc_old h _ b o hb,
          fun m b T hT => toLogger_alloc h _ m b T hT⟩
        · simp [WithContextH, hl, Heap.alloc]
        · rw [Heap.toLogger, load_alloc_new]
          simp [toLogger_alloc h _ _ _ _ (toLogger_mono h _ _ _ hi), WithContext]
      · cases hL
    · next f hl =>
      split at hL
      · next inner hi =>
        cases hL
        obtain ⟨i', h1, hr, hrep, hload, hval⟩ := ih h f.logger inner hi
        refine ⟨h1.objs.length, Heap.mk (h1.objs ++ [.filter ⟨i', f.rules⟩]), ?_, ?_,
          fun b o hb => load_alloc_old h1 _ b o (hload b o hb),
          fun m b T hT => toLogger_alloc h1 _ m b T (hval m b T hT)⟩
        · simp [WithContextH, hl, hr, Heap.alloc]
        · rw [Heap.toLogger, load_alloc_new]
          simp [toLogger_alloc h1 _ _ _ _ hrep, WithContext]
      · cases hL
    · cases hL

/-! ## The decorator chain: claims -/

/-- C5. For every std backend over a sink that is not `io.Discard`, every chain built
over it with `With` and `WithContext`, every level and every non-empty keyvals, `Log`
makes exactly one `Write` on the sink (the trace of writes grows by one entry, for
that sink) and returns exactly the error value that `Write` returned, `nil` included;
there is no second attempt. -/
theorem Log_write_error_propagated (id : Nat)
    (reply : List (Nat × String) → String → Option Error) (ops : List ChainOp)
    (level : Level) (keyvals : List Val) (s : World) (hne : keyvals ≠ []) :
    ∃ (bytes : String) (env : Env),
      Logger.Log (build (.std (NewStdLogger (.sink id reply))) ops) level keyvals s =
        (.ret (reply s.writes bytes),
          { env := env, writes := s.writes ++ [(id, bytes)], calls := s.calls }) := by
  rcases build_std_shape (NewStdLogger (.sink id reply)) ops _ (Or.inl rfl) with h | ⟨p, hv, c, h⟩
  · rw [h]
    exact ⟨_, s.env, by rw [Logger.Log, stdLogger_Log_sink id reply level keyvals s hne]⟩
  · rw [h]
    cases hv
    · refine ⟨renderedLine level (padded (p ++ keyvals)), s.env, ?_⟩
      simp only [Logger.Log, Bool.false_eq_true, if_false, List.nil_append]
      rw [stdLogger_Log_sink id reply level _ _ (by simp [hne])]
    · refine ⟨renderedLine level (padded ((bindValues c p s.env).1 ++ keyvals)),
        (bindValues c p s.env).2, ?_⟩
      simp only [Logger.Log, if_true, List.nil_append]
      rw [stdLogger_Log_sink id reply level _ _ (by simp [hne])]

/-- C5, at a concrete input: a failing sink under a chain with a Valuer. -/
theorem Log_write_error_propagated_witness :
    [Val.str "msg", Val.str "hi"] ≠ [] ∧
    (Logger.Log
      (build (.std (NewStdLogger (.sink 3 (fun _ _ => some "disk full"))))
        [.withFields [.str "svc", .str "api"], .withContext ⟨[("rid", "42")]⟩,
          .withFields [.str "n", .valuer 0 (fun _ e => .int e) (fun _ e => e + 1)]])
      .LevelInfo [.str "msg", .str "hi"] ⟨5, [], []⟩).1 = .ret (some "disk full") := by
  refine ⟨by simp, ?_⟩
  obtain ⟨bytes, env, h⟩ := Log_write_error_propagated 3 (fun _ _ => some "disk full")
    [.withFields [.str "svc", .str "api"], .withContext ⟨[("rid", "42")]⟩,
      .withFields [.str "n", .valuer 0 (fun _ e => .int e) (fun _ e => e + 1)]]
    .LevelInfo [.str "msg", .str "hi"] ⟨5, [], []⟩ (by simp)
  rw [h]

/-- C3. Prefix flattening is associative: for every Logger `b` and all key-value lists
`kv1`, `kv2`, the loggers `With(With(b, kv1...), kv2...)` and `With(b, (kv1 ++ kv2)...)`
are the same decorator, with the same wrapped backend, prefix, bound scope and Valuer
flag, so for every level, caller keyvals and state their `Log` calls do the same. -/
theorem With_With (b : Logger) (kv1 kv2 : List Val) :
    With (With b kv1) kv2 = With b (kv1 ++ kv2) ∧
    (With (With b kv1) kv2).inner? = (With b (kv1 ++ kv2)).inner? ∧
    (With (With b kv1) kv2).prefix? = (With b (kv1 ++ kv2)).prefix? ∧
    (With (With b kv1) kv2).ctx? = (With b (kv1 ++ kv2)).ctx? ∧
    (With (With b kv1) kv2).hasValuer? = (With b (kv1 ++ kv2)).hasValuer? ∧
    (∀ (level : Level) (keyvals : List Val) (s : World),
      Logger.Log (With (With b kv1) kv2) level keyvals s =
        Logger.Log (With b (kv1 ++ kv2)) level keyvals s) := by
  have h : With (With b kv1) kv2 = With b (kv1 ++ kv2) := by
    cases b <;> simp [With]
  refine ⟨h, ?_, ?_, ?_, ?_, ?_⟩ <;> simp [h]

/-- C4. For every decorator obtained from a Logger that is not itself a decorator by
any sequence of `With` and `WithContext` calls, the Valuer flag is set exactly when
the prefix contains a Valuer, and for every level, caller keyvals and state, `Log` is
one call of the wrapped logger with the same level and the sequence
`R(prefix) ++ keyvals`, where `R` binds the Valuers of the prefix in prefix order
against the decorator's scope; the caller's keyvals are passed on unchanged. When the
wrapped logger is a backend outside the facade, it receives exactly that one call. -/
theorem deco_Log_resolved_sequence (b : Logger) (ops : List ChainOp) (inner : Logger)
    (pfx : List Val) (hv : Bool) (ctx : Context) (hb : b.isDeco = false)
    (hd : build b ops = .deco inner pfx hv ctx) :
    hv = containsValuer pfx ∧
    (∀ (level : Level) (keyvals : List Val) (s : World),
      Logger.Log (build b ops) level keyvals s =
        Logger.Log inner level ((bindValues ctx pfx s.env).1 ++ keyvals)
          { s with env := (bindValues ctx pfx s.env).2 }) ∧
    (∀ (id : Nat) (reply : Level → List Val → Outcome), inner = .backend id reply →
      ∀ (level : Level) (keyvals : List Val) (s : World),
        Logger.Log (build b ops) level keyvals s =
          (reply level ((bindValues ctx pfx s.env).1 ++ keyvals),
            { env := (bindValues ctx pfx s.env).2, writes := s.writes,
              calls := s.calls ++ [(id, level, (bindValues ctx pfx s.env).1 ++ keyvals)] })) := by
  have hflag : hv = containsValuer pfx := by
    have h := flagOK_build b ops (flagOK_of_not_deco b hb)
    rw [hd] at h
    simpa [Logger.flagOK] using h
  refine ⟨hflag, ?_, ?_⟩
  · intro level keyvals s
    rw [hd, Logger_Log_deco inner pfx hv ctx level keyvals s hflag]
  · intro id reply hi level keyvals s
    rw [hd, Logger_Log_deco inner pfx hv ctx level keyvals s hflag, hi, Logger.Log]

/-- C4, at a concrete input: a Valuer in the prefix, a Valuer among the caller's
keyvals. -/
theorem deco_Log_resolved_sequence_witness :
    (Logger.backend 1 (fun _ _ => .ret none)).isDeco = false ∧
    (Logger.Log
      (build (.backend 1 (fun _ _ => .ret none))
        [.withFields [.str "n", .valuer 0 (fun _ e => .int e) (fun _ e => e + 1)],
          .withContext ⟨[("rid", "42")]⟩])
      .LevelInfo [.str "late", .valuer 9 (fun _ _ => .nil) (fun _ e => e)] ⟨5, [], []⟩).2.calls.map
        (fun c => (c.1, c.2.1, c.2.2.map fmtV)) =
      [(1, .LevelInfo, ["n", "5", "late", "0x9"])] := by
  refine ⟨rfl, ?_⟩
  rw [(deco_Log_resolved_sequence (.backend 1 (fun _ _ => .ret none))
    [.withFields [.str "n", .valuer 0 (fun _ e => .int e) (fun _ e => e + 1)],
      .withContext ⟨[("rid", "42")]⟩] _ _ _ _ rfl rfl).2.2 1 _ rfl]
  decide

/-- C6. `WithContext` changes only the scope. For every heap, every address `a` that
holds a decorator `d` and every scope `ctx`, `WithContext(ctx, a)` returns an address
that held nothing before (a new decorator), which now holds a `logger` with scope
`ctx` and with the wrapped logger (the same address), prefix and Valuer flag of `d`;
every object the heap held, `d` with its bound scope among them, is still there
unchanged. For every address `a` that holds neither a decorator nor a Filter,
`WithContext(ctx, a)` returns a new address holding a `logger` that wraps `a` with
scope `ctx`, an empty prefix and the Valuer flag unset, and again no object the heap
held has changed. -/
theorem WithContext_frame :
    (∀ (fuel : Nat) (ctx : Context) (h : Heap) (a : Addr) (d : logger),
      h.load a = some (.deco d) →
      ∃ (a' : Addr) (h' : Heap),
        WithContextH (fuel + 1) ctx a h = some (a', h') ∧
        h.load a' = none ∧ a' ≠ a ∧
        h'.load a' = some (.deco ⟨d.logger, d.prefix_, d.hasValuer, ctx⟩) ∧
        h'.load a = some (.deco d) ∧
        (∀ (b : Addr) (o : Obj), h.load b = some o → h'.load b = some o) ∧
        h'.objs.length = h.objs.length + 1) ∧
    (∀ (fuel : Nat) (ctx : Context) (h : Heap) (a : Addr),
      (∀ d, h.load a ≠ some (.deco d)) → (∀ f, h.load a ≠ some (.filter f)) →
      ∃ (a' : Addr) (h' : Heap),
        WithContextH (fuel + 1) ctx a h = some (a', h') ∧
        h.load a' = none ∧
        h'.load a' = some (.deco ⟨a, [], false, ctx⟩) ∧
        (∀ (b : Addr) (o : Obj), h.load b = some o → h'.load b = some o) ∧
        h'.objs.length = h.objs.length + 1) := by
  constructor
  · intro fuel ctx h a d hd
    refine ⟨h.objs.length, Heap.mk (h.objs ++ [.deco ⟨d.logger, d.prefix_, d.hasValuer, ctx⟩]), ?_,
      load_length h, ?_, load_alloc_new h _, load_alloc_old h _ a _ hd,
      fun b o hb => load_alloc_old h _ b o hb, by simp⟩
    · simp [WithContextH, hd, Heap.alloc]
    · intro he
      have := load_length h
      rw [he, hd] at this
      cases this
  · intro fuel ctx h a hnd hnf
    refine ⟨h.objs.length,
      Heap.mk (h.objs ++ [.deco ⟨a, [], false, ctx⟩]), ?_, load_length h, load_alloc_new h _,
      fun b o hb => load_alloc_old h _ b o hb, by simp⟩
    rw [WithContextH]
    split
    · next v hv => exact absurd hv (hnd v)
    · next v hv => exact absurd hv (hnf v)
    · rfl

/-- C6, at concrete inputs: a heap with a backend at address 0 and a decorator over it
at address 1 with a scope of its own. `WithContext` on the decorator returns address 2
and leaves address 1 as it was; on the backend it returns a new decorator over
address 0. -/
theorem WithContext_frame_witness :
    (Heap.mk [.backend 1 (fun _ _ => .ret none),
      .deco ⟨0, [.str "k", .int 1], false, ⟨[("rid", "7")]⟩⟩]).load 1 =
        some (.deco ⟨0, [.str "k", .int 1], false, ⟨[("rid", "7")]⟩⟩) ∧
    (∃ (a' : Addr) (h' : Heap),
      WithContextH 1 ⟨[("rid", "42")]⟩ 1
        (Heap.mk [.backend 1 (fun _ _ => .ret none),
          .deco ⟨0, [.str "k", .int 1], false, ⟨[("rid", "7")]⟩⟩]) = some (a', h') ∧
      a' ≠ 1 ∧
      h'.load a' = some (.deco ⟨0, [.str "k", .int 1], false, ⟨[("rid", "42")]⟩⟩) ∧
      h'.load 1 = some (.deco ⟨0, [.str "k", .int 1], false, ⟨[("rid", "7")]⟩⟩)) ∧
    (WithContextH 1 ⟨[("rid", "42")]⟩ 1
      (Heap.mk [.backend 1 (fun _ _ => .ret none),
        .deco ⟨0, [.str "k", .int 1], false, ⟨[("rid", "7")]⟩⟩])).map (fun r => r.1) =
      some 2 ∧
    (∃ (a' : Addr) (h' : Heap),
      WithContextH 1 ⟨[("rid", "42")]⟩ 0
        (Heap.mk [.backend 1 (fun _ _ => .ret none),
          .deco ⟨0, [.str "k", .int 1], false, ⟨[("rid", "7")]⟩⟩]) = some (a', h') ∧
      h'.load a' = some (.deco ⟨0, [], false, ⟨[("rid", "42")]⟩⟩)) := by
  refine ⟨rfl, ?_, rfl, ?_⟩
  · obtain ⟨a', h', hr, _, hne, hnew, hold, _, _⟩ := WithContext_frame.1 0 ⟨[("rid", "42")]⟩
      (Heap.mk [.backend 1 (fun _ _ => .ret none),
        .deco ⟨0, [.str "k", .int 1], false, ⟨[("rid", "7")]⟩⟩]) 1
      ⟨0, [.str "k", .int 1], false, ⟨[("rid", "7")]⟩⟩ rfl
    exact ⟨a', h', hr, hne, hnew, hold⟩
  · obtain ⟨a', h', hr, _, hnew, _, _⟩ := WithContext_frame.2 0 ⟨[("rid", "42")]⟩
      (Heap.mk [.backend 1 (fun _ _ => .ret none),
        .deco ⟨0, [.str "k", .int 1], false, ⟨[("rid", "7")]⟩⟩]) 0
      (fun d hd => by cases hd) (fun f hf => by cases hf)
    exact ⟨a', h', hr, hnew⟩

/-- C8. Valuers are bound anew on every call. For every decorator built by `With` and
`WithContext` over a backend outside the facade, two successive `Log` calls each bind
the prefix's Valuers once, in the ambient state of that call: the state after a call
is the state after one pass over the prefix, and the backend receives first the prefix
bound at the first call and then the same prefix, its Valuers still in it, bound at
the second call. With one Valuer in the prefix, returning `x` at the first call and
`y` at the second, the backend receives `x` and then `y`. -/
theorem valuer_bound_on_every_call (b : Logger) (ops : List ChainOp) (id : Nat)
    (reply : Level → List Val → Outcome) (pfx : List Val) (hv : Bool) (ctx : Context)
    (hb : b.isDeco = false) (hd : build b ops = .deco (.backend id reply) pfx hv ctx)
    (l1 l2 : Level) (kv1 kv2 : List Val) (s : World) :
    (Logger.Log (build b ops) l1 kv1 s).2.env = (bindValues ctx pfx s.env).2 ∧
    (Logger.Log (build b ops) l2 kv2 (Logger.Log (build b ops) l1 kv1 s).2).2.env =
      (bindValues ctx pfx (bindValues ctx pfx s.env).2).2 ∧
    (Logger.Log (build b ops) l2 kv2 (Logger.Log (build b ops) l1 kv1 s).2).2.calls =
      s.calls ++ [(id, l1, (bindValues ctx pfx s.env).1 ++ kv1),
        (id, l2, (bindValues ctx pfx (bindValues ctx pfx s.env).2).1 ++ kv2)] ∧
    (∀ (k : Val) (addr : Nat) (run : Context → Env → Val) (step : Context → Env → Env),
      k.isValuer = false → pfx = [k, .valuer addr run step] →
      (Logger.Log (build b ops) l2 kv2 (Logger.Log (build b ops) l1 kv1 s).2).2.calls =
        s.calls ++ [(id, l1, [k, run ctx s.env] ++ kv1),
          (id, l2, [k, run ctx (step ctx s.env)] ++ kv2)]) := by
  have hflag : hv = containsValuer pfx := by
    have h := flagOK_build b ops (flagOK_of_not_deco b hb)
    rw [hd] at h
    simpa [Logger.flagOK] using h
  have hlog : ∀ (l : Level) (kv : List Val) (t : World),
      Logger.Log (build b ops) l kv t =
        (reply l ((bindValues ctx pfx t.env).1 ++ kv),
          { env := (bindValues ctx pfx t.env).2, writes := t.writes,
            calls := t.calls ++ [(id, l, (bindValues ctx pfx t.env).1 ++ kv)] }) := by
    intro l kv t
    rw [hd, Logger_Log_deco _ pfx hv ctx l kv t hflag, Logger.Log]
  refine ⟨by rw [hlog], by rw [hlog, hlog], by rw [hlog, hlog]; simp, ?_⟩
  intro k addr run step hk hp
  subst hp
  rw [hlog, hlog]
  cases k <;> simp_all [bindValues, Val.isValuer]

/-- C8, at a concrete input: a Valuer that reads a counter and advances it. -/
theorem valuer_bound_on_every_call_witness :
    (Logger.backend 1 (fun _ _ => .ret none)).isDeco = false ∧
    (Logger.Log
      (build (.backend 1 (fun _ _ => .ret none))
        [.withFields [.str "n", .valuer 0 (fun _ e => .int e) (fun _ e => e + 1)]])
      .LevelWarn [.str "b", .int 2]
      (Logger.Log
        (build (.backend 1 (fun _ _ => .ret none))
          [.withFields [.str "n", .valuer 0 (fun _ e => .int e) (fun _ e => e + 1)]])
        .LevelInfo [.str "a", .int 1] ⟨5, [], []⟩).2).2.calls.map
          (fun c => (c.1, c.2.1, c.2.2.map fmtV)) =
      [(1, .LevelInfo, ["n", "5", "a", "1"]), (1, .LevelWarn, ["n", "6", "b", "2"])] := by
  refine ⟨rfl, ?_⟩
  rw [(valuer_bound_on_every_call (.backend 1 (fun _ _ => .ret none))
    [.withFields [.str "n", .valuer 0 (fun _ e => .int e) (fun _ e => e + 1)]]
    1 _ _ _ _ rfl rfl .LevelInfo .LevelWarn [.str "a", .int 1] [.str "b", .int 2]
    ⟨5, [], []⟩).2.2.2 (.str "n") 0 _ _ rfl rfl]
  decide

/-- C9, as stated, fails for a Filter: `WithContext(ctx, f)` is again a Filter (the
scope goes to the logger inside it), so `With` wraps it afresh with the background
scope, not `ctx`; `WithContext(ctx, With(f, kv...))` has the scope `ctx`. -/
theorem With_over_Filter_has_background_scope :
    (With (WithContext ⟨[("rid", "42")]⟩
        (.filter (.backend 0 (fun _ _ => .ret none)) ⟨.LevelInfo, fun _ _ => false, .nil⟩))
      [.str "k", .valuer 0 (fun c _ => .int c.values.length) (fun _ e => e)]).ctx? =
      some Context.Background ∧
    Context.Background ≠ ⟨[("rid", "42")]⟩ ∧
    (WithContext ⟨[("rid", "42")]⟩
      (With (.filter (.backend 0 (fun _ _ => .ret none)) ⟨.LevelInfo, fun _ _ => false, .nil⟩)
        [.str "k", .valuer 0 (fun c _ => .int c.values.length) (fun _ e => e)])).ctx? =
      some ⟨[("rid", "42")]⟩ := by
  decide

/-- C9, amended. For every Logger `l` that is not a Filter (a plain backend or a
decorator), every scope `ctx` and every `kv`, `With(WithContext(ctx, l), kv...)` is a
decorator whose bound scope is `ctx`, and it is the same decorator as
`WithContext(ctx, With(l, kv...))`. For a Filter `f`, `With(WithContext(ctx, f), kv...)`
is a decorator with the background scope that wraps the copy of `f` whose inner
logger is `WithContext(ctx, f.logger)`. -/
theorem With_WithContext_scope :
    (∀ (l : Logger) (ctx : Context) (kv : List Val), l.isFilter = false →
      (With (WithContext ctx l) kv).isDeco = true ∧
      (With (WithContext ctx l) kv).ctx? = some ctx ∧
      With (WithContext ctx l) kv = WithContext ctx (With l kv)) ∧
    (∀ (inner : Logger) (rules : FilterRules) (ctx : Context) (kv : List Val),
      With (WithContext ctx (.filter inner rules)) kv =
        .deco (.filter (WithContext ctx inner) rules) kv
          (containsValuer kv) Context.Background) := by
  constructor
  · intro l ctx kv hf
    cases l <;> simp_all [With, WithContext, Logger.isFilter, Logger.isDeco, Logger.ctx?]
  · intro inner rules ctx kv
    simp [With, WithContext]

/-- C9 amended, at a concrete input: a std backend. -/
theorem With_WithContext_scope_witness :
    (Logger.std (NewStdLogger .Discard)).isFilter = false ∧
    (With (WithContext ⟨[("rid", "42")]⟩ (Logger.std (NewStdLogger .Discard)))
      [.str "k", .int 1]).ctx? = some ⟨[("rid", "42")]⟩ :=
  ⟨rfl, (With_WithContext_scope.1 (Logger.std (NewStdLogger .Discard)) ⟨[("rid", "42")]⟩
    [.str "k", .int 1] rfl).2.1⟩

end App.Log

/-! ## The zap adapter: claims -/

namespace App.Zap

open App.Log

/-- C10 fails on the code. On a zap adapter whose core enables the Info level,
`Log(LevelInfo, 1, "x")`, an even-length sequence whose key is an `int`, does not
return `nil`: the unchecked type assertion `keyvals[i].(string)` panics before
anything is printed or logged. -/
theorem zap_Log_panics_on_non_string_key (num : Level → Int) (l : Logger) (s : World)
    (h : l.Enabled (num .LevelInfo) = true) :
    Logger.Log num l .LevelInfo [.int 1, .str "x"] s =
      (.panicked "interface conversion: interface \x7b\x7d is int, not string", s) := by
  simp [Logger.Log, Logger.Log.loop, typeName, h]

/-- C10's failing input on a core that enables every level from zap's Info (0) up,
with the levels numbered from Debug = -1 to Fatal = 3. -/
theorem zap_Log_panics_on_non_string_key_witness :
    (fun n : Int => decide (0 ≤ n)) ((fun l : Level => (l.rank : Int) - 1) .LevelInfo) = true ∧
    (Logger.Log (fun l => (l.rank : Int) - 1) ⟨fun n => decide (0 ≤ n), "msg"⟩ .LevelInfo
      [.int 1, .str "x"] ⟨[], []⟩).1 =
      .panicked "interface conversion: interface \x7b\x7d is int, not string" := by
  refine ⟨by decide, ?_⟩
  rw [zap_Log_panics_on_non_string_key (fun l => (l.rank : Int) - 1)
    ⟨fun n => decide (0 ≤ n), "msg"⟩ ⟨[], []⟩ (by decide)]

end App.Zap
